import Mathlib

/-!
Shallow embedding of the bincooo/cohere-api repository.  The repository holds
two revisions of the same client: the current main file (src/unnamed/part_000,
namespace `Cohere` below) and the older src/chat.go (namespace `ChatV1`).
Pure data is embedded directly; the stream resolver `resolve` is embedded as a
function from the sequence of results returned by the buffered line reader
(`bufio.Reader.ReadLine`) to the list of channel/resource actions it performs.
The Go standard library collaborators (`encoding/json`, `bufio`) are modelled
executably from their documented behaviour and source, as noted on each
definition.
-/

namespace Wire

/-- JSON values: the model of the Go `interface{}` values that
`encoding/json` produces when decoding, and consumes when encoding.
Numbers are kept as their raw textual form (the resolver never inspects
numeric fields, so float64 rounding is irrelevant here). -/
inductive Jval where
  | null
  | bool (b : Bool)
  | str (s : String)
  | num (raw : String)
  | arr (elems : List Jval)
  | obj (fields : List (String × Jval))

/-- Error message used by encoding/json for empty or truncated input. -/
def jsonEofMsg : String := "unexpected end of JSON input"

/-- Simplified stand-in for the family of Go messages of the form
invalid character ... looking for beginning of value. -/
def jsonCharMsg : String := "invalid character looking for beginning of value"

/-- Simplified message for a broken true/false/null literal. -/
def jsonLitMsg : String := "invalid character in literal"

/-- Simplified message for a bad escape sequence in a JSON string. -/
def jsonEscMsg : String := "invalid character in string escape code"

/-- Message for trailing bytes after a complete top-level JSON value. -/
def jsonTrailMsg : String := "invalid character after top-level value"

/-- Message returned when the recursion fuel of the parser runs out; the
fuel is always sufficient for inputs the resolver can feed it. -/
def jsonDepthMsg : String := "exceeded maximum nesting depth"

/-- JSON whitespace. -/
def isWsC (c : Char) : Bool := [' ', '\t', '\n', '\r'].contains c

/-- Skip leading JSON whitespace. -/
def skipWs : List Char → List Char
  | [] => []
  | c :: s => if isWsC c then skipWs s else c :: s

/-- Value of a hexadecimal digit. -/
def hexVal (c : Char) : Option Nat :=
  if c.isDigit then some (c.toNat - 48)
  else if 'a' ≤ c ∧ c ≤ 'f' then some (c.toNat - 87)
  else if 'A' ≤ c ∧ c ≤ 'F' then some (c.toNat - 55)
  else none

/-- Single-character JSON string escapes: the three self-quoting ones, the
named control characters, and backspace and form feed by code point. -/
def escChar (e : Char) : Option Char :=
  if e = '"' ∨ e = '\\' ∨ e = '/' then some e
  else if e = 'n' then some '\n'
  else if e = 't' then some '\t'
  else if e = 'r' then some '\r'
  else if e = 'b' then some (Char.ofNat 8)
  else if e = 'f' then some (Char.ofNat 12)
  else none

/-- Parse the contents of a JSON string after the opening quote, returning
the decoded characters and the remainder after the closing quote.
Modelled from encoding/json string decoding (surrogate pairs are not
recombined; no input in this development contains them). -/
def pStrChars : Nat → List Char → Except String (List Char × List Char)
  | 0, _ => .error jsonDepthMsg
  | _ + 1, [] => .error jsonEofMsg
  | _ + 1, '"' :: s => .ok ([], s)
  | fu + 1, '\\' :: 'u' :: h1 :: h2 :: h3 :: h4 :: s =>
    match hexVal h1, hexVal h2, hexVal h3, hexVal h4 with
    | some a, some b, some c, some d =>
      (pStrChars fu s).map
        (fun p => (Char.ofNat (((a * 16 + b) * 16 + c) * 16 + d) :: p.1, p.2))
    | _, _, _, _ => .error jsonEscMsg
  | _ + 1, ['\\'] => .error jsonEofMsg
  | fu + 1, '\\' :: e :: s =>
    match escChar e with
    | some c => (pStrChars fu s).map (fun p => (c :: p.1, p.2))
    | none => .error jsonEscMsg
  | fu + 1, c :: s =>
    if c.toNat < 32 then .error "invalid control character in string"
    else (pStrChars fu s).map (fun p => (c :: p.1, p.2))

/-- Take the leading run of number-like characters (validation of the exact
JSON number grammar is not needed by any input in this development). -/
def pNumChars : List Char → List Char × List Char
  | [] => ([], [])
  | c :: s =>
    if c.isDigit ∨ c = '-' ∨ c = '+' ∨ c = '.' ∨ c = 'e' ∨ c = 'E' then
      let p := pNumChars s
      (c :: p.1, p.2)
    else ([], c :: s)

mutual

/-- Parse one JSON value.  Modelled from encoding/json; the fuel bounds the
nesting depth and is always instantiated at input length + 1, which cannot
be exhausted since every nesting level consumes input. -/
def pVal : Nat → List Char → Except String (Jval × List Char)
  | 0, _ => .error jsonDepthMsg
  | fu + 1, s =>
    match skipWs s with
    | [] => .error jsonEofMsg
    | '"' :: s1 => (pStrChars (s1.length + 1) s1).map (fun p => (.str (String.mk p.1), p.2))
    | '{' :: s1 => (pObjItems fu s1).map (fun p => (.obj p.1, p.2))
    | '[' :: s1 => (pArrItems fu s1).map (fun p => (.arr p.1, p.2))
    | 't' :: s1 =>
      match s1 with
      | 'r' :: 'u' :: 'e' :: r => .ok (.bool true, r)
      | _ => .error jsonLitMsg
    | 'f' :: s1 =>
      match s1 with
      | 'a' :: 'l' :: 's' :: 'e' :: r => .ok (.bool false, r)
      | _ => .error jsonLitMsg
    | 'n' :: s1 =>
      match s1 with
      | 'u' :: 'l' :: 'l' :: r => .ok (.null, r)
      | _ => .error jsonLitMsg
    | c :: s1 =>
      if c.isDigit ∨ c = '-' then
        let p := pNumChars (c :: s1)
        .ok (.num (String.mk p.1), p.2)
      else .error jsonCharMsg

/-- Parse the items of a JSON array after the opening bracket. -/
def pArrItems : Nat → List Char → Except String (List Jval × List Char)
  | 0, _ => .error jsonDepthMsg
  | fu + 1, s =>
    match skipWs s with
    | ']' :: r => .ok ([], r)
    | _ => do
      let (v, r1) ← pVal fu s
      let (vs, r2) ← pArrRest fu r1
      .ok (v :: vs, r2)

/-- Parse the rest of a JSON array after one complete item. -/
def pArrRest : Nat → List Char → Except String (List Jval × List Char)
  | 0, _ => .error jsonDepthMsg
  | fu + 1, s =>
    match skipWs s with
    | ']' :: r => .ok ([], r)
    | ',' :: r => do
      let (v, r1) ← pVal fu r
      let (vs, r2) ← pArrRest fu r1
      .ok (v :: vs, r2)
    | _ => .error "invalid character in array"

/-- Parse the members of a JSON object after the opening brace. -/
def pObjItems : Nat → List Char → Except String (List (String × Jval) × List Char)
  | 0, _ => .error jsonDepthMsg
  | fu + 1, s =>
    match skipWs s with
    | '}' :: r => .ok ([], r)
    | _ => pObjPair fu s

/-- Parse one key/value member and the rest of the JSON object. -/
def pObjPair : Nat → List Char → Except String (List (String × Jval) × List Char)
  | 0, _ => .error jsonDepthMsg
  | fu + 1, s =>
    match skipWs s with
    | '"' :: s1 => do
      let (kcs, r1) ← pStrChars (s1.length + 1) s1
      match skipWs r1 with
      | ':' :: r2 => do
        let (v, r3) ← pVal fu r2
        match skipWs r3 with
        | ',' :: r4 => do
          let (kvs, r5) ← pObjPair fu r4
          .ok ((String.mk kcs, v) :: kvs, r5)
        | '}' :: r4 => .ok ([(String.mk kcs, v)], r4)
        | _ => .error "invalid character in object"
      | _ => .error "invalid character after object key"
    | [] => .error jsonEofMsg
    | _ => .error "invalid character in object key"

end

/-- Parse a complete top-level JSON value, requiring only whitespace after
it, as json.Unmarshal does. -/
def parseTop (s : List Char) : Except String Jval :=
  match pVal (s.length + 1) s with
  | .error e => .error e
  | .ok (v, rest) =>
    if (skipWs rest).isEmpty then .ok v else .error jsonTrailMsg

/-- Lower-case hexadecimal digit, as used by json escape sequences. -/
def hexDigit (n : Nat) : Char :=
  if n < 10 then Char.ofNat (48 + n) else Char.ofNat (87 + n)

/-- Escape one character of a JSON string the way encoding/json does with
its default HTML escaping (quotes, backslashes, control characters, and
the three HTML-significant characters). -/
def escJsonChar (c : Char) : List Char :=
  if c = '"' then ['\\', '"']
  else if c = '\\' then ['\\', '\\']
  else if c = '\n' then ['\\', 'n']
  else if c = '\r' then ['\\', 'r']
  else if c = '\t' then ['\\', 't']
  else if c = '<' ∨ c = '>' ∨ c = '&' ∨ c.toNat < 32 then
    ['\\', 'u', '0', '0', hexDigit (c.toNat / 16), hexDigit (c.toNat % 16)]
  else [c]

/-- Serialize a string to a quoted JSON string literal. -/
def quoteJson (s : String) : String :=
  String.mk ('"' :: (s.toList.map escJsonChar).flatten ++ ['"'])

mutual

/-- Compact JSON serialization, the model of json.Marshal on decoded
values.  Object member order is kept as decoded (Go sorts map keys; no
claim in this development depends on member order inside a tool call), and
numbers are re-emitted in their raw decoded form. -/
def marshalJ : Jval → String
  | .null => "null"
  | .bool true => "true"
  | .bool false => "false"
  | .str s => quoteJson s
  | .num raw => raw
  | .arr xs => "[" ++ marshalArr xs ++ "]"
  | .obj kvs => "\x7b" ++ marshalObj kvs ++ "\x7d"

/-- Comma-separated serialization of array elements. -/
def marshalArr : List Jval → String
  | [] => ""
  | [x] => marshalJ x
  | x :: y :: rest => marshalJ x ++ "," ++ marshalArr (y :: rest)

/-- Comma-separated serialization of object members. -/
def marshalObj : List (String × Jval) → String
  | [] => ""
  | [(k, v)] => quoteJson k ++ ":" ++ marshalJ v
  | (k, v) :: m :: rest => quoteJson k ++ ":" ++ marshalJ v ++ "," ++ marshalObj (m :: rest)

end

/-- Read errors surfaced by the line reader: io.EOF or any other error
described by its message. -/
inductive RErr where
  | eof
  | other (msg : String)
deriving DecidableEq

/-- The description fmt.Sprintf produces for a read error. -/
def errDescr : RErr → String
  | .eof => "EOF"
  | .other m => m

/-- One result of bufio.Reader.ReadLine: the returned bytes, the isPrefix
flag (the line was longer than the internal buffer and continues), and the
error, if any.  ReadLine never returns data together with an error, but the
resolver does not rely on that, and neither does this model. -/
structure ReadRes where
  line : List Char
  more : Bool
  err : Option RErr
deriving DecidableEq

/-- Observable actions of one resolver run, in order: channel sends and
the deferred resource releases. -/
inductive Action where
  | send (s : String)
  | closeBody
  | closeChan
deriving DecidableEq

/-- Case folding used by encoding/json when matching object keys to struct
field tags (an exact match and a case-insensitive match coincide for every
key this repository uses). -/
def lcEq (a b : String) : Bool :=
  a.toList.map Char.toLower == b.toList.map Char.toLower

end Wire

namespace Cohere

open Wire

/-- The wire-level event block of src/unnamed/part_000:
is_finished, event_type, generation_id, text, finish_reason, tool_calls.
Field defaults are the Go zero values; ToolCalls is none for the nil slice. -/
structure block where
  Finished : Bool := false
  Event : String := ""
  Id : String := ""
  Text : String := ""
  Reason : String := ""
  ToolCalls : Option (List Jval) := none

/-- Assign one decoded JSON object member to the matching field of `block`,
as encoding/json does: tag-matched fields take the value when its JSON type
fits, a null leaves the field unchanged, a wrong type is an error, and an
unknown key is ignored. -/
def setField (b : block) (k : String) (v : Jval) : Except String block :=
  if lcEq k "is_finished" then
    match v with
    | .bool x => .ok { b with Finished := x }
    | .null => .ok b
    | _ => .error "cannot unmarshal value into field is_finished"
  else if lcEq k "event_type" then
    match v with
    | .str s => .ok { b with Event := s }
    | .null => .ok b
    | _ => .error "cannot unmarshal value into field event_type"
  else if lcEq k "generation_id" then
    match v with
    | .str s => .ok { b with Id := s }
    | .null => .ok b
    | _ => .error "cannot unmarshal value into field generation_id"
  else if lcEq k "text" then
    match v with
    | .str s => .ok { b with Text := s }
    | .null => .ok b
    | _ => .error "cannot unmarshal value into field text"
  else if lcEq k "finish_reason" then
    match v with
    | .str s => .ok { b with Reason := s }
    | .null => .ok b
    | _ => .error "cannot unmarshal value into field finish_reason"
  else if lcEq k "tool_calls" then
    match v with
    | .arr xs => .ok { b with ToolCalls := some xs }
    | .null => .ok b
    | _ => .error "cannot unmarshal value into field tool_calls"
  else .ok b

/-- Fold all members of a decoded JSON object into a `block`. -/
def applyFields (b : block) : List (String × Jval) → Except String block
  | [] => .ok b
  | (k, v) :: rest =>
    match setField b k v with
    | .error e => .error e
    | .ok b2 => applyFields b2 rest

/-- json.Unmarshal into the `block` struct: the input must be a complete
top-level JSON object (or null, which leaves the zero value). -/
def unmarshalBlock (s : List Char) : Except String block :=
  match parseTop s with
  | .error e => .error e
  | .ok (.obj kvs) => applyFields {} kvs
  | .ok .null => .ok {}
  | .ok _ => .error "cannot unmarshal value into block"

/-- The JSON value json.Marshal sees for the ToolCalls slice: the nil slice
encodes as null, otherwise as the array. -/
def optToolsJ : Option (List Jval) → Jval
  | none => .null
  | some xs => .arr xs

/-- json.Marshal on a decoded value.  Marshalling values that themselves
came out of json decoding cannot fail, so the error arm of the Go code is
unreachable; the Except shape is kept because resolve matches on it. -/
def jsonMarshal (v : Jval) : Except String String := .ok (marshalJ v)

/-- Processing of one complete accumulated line by resolve
(src/unnamed/part_000 lines 245-268), with `k` the continuation of the loop
on the remaining reads (the loop continues with the accumulation buffer
reset).  The final [closeBody, closeChan] on every return arm is the pair
of deferred releases, run in LIFO order. -/
def handleLine (s : List Char) (k : List Action) : List Action :=
  match unmarshalBlock s with
  | .error e => [.send ("error: " ++ e), .closeBody, .closeChan]
  | .ok b =>
    if b.Finished then [.closeBody, .closeChan]
    else if b.Event = "text-generation" then .send ("text: " ++ b.Text) :: k
    else if b.Event = "tool-calls-generation" then
      match jsonMarshal (optToolsJ b.ToolCalls) with
      | .error e => [.send ("error: " ++ e), .closeBody, .closeChan]
      | .ok m => .send ("tool: " ++ m) :: k
    else k

/-- The resolve loop of src/unnamed/part_000 lines 223-269, as a function
of the accumulation buffer and the remaining ReadLine results.  Every
iteration first appends the returned bytes to the buffer; an error result
ends the loop (error report unless io.EOF, then the raw-buffer salvage,
then the deferred releases); an isPrefix result just keeps accumulating;
a complete line is handled by `handleLine`.  A reader always eventually
returns an error, so an exhausted result list is the end of the run. -/
def resolveLoop : List Char → List ReadRes → List Action
  | _, [] => [.closeBody, .closeChan]
  | buf, ⟨l, _, some e⟩ :: _ =>
    (if e = RErr.eof then [] else [.send ("error: " ++ errDescr e)]) ++
      (if buf ++ l = [] then [] else [.send ("text: " ++ String.mk (buf ++ l))]) ++
      [.closeBody, .closeChan]
  | buf, ⟨l, true, none⟩ :: rest => resolveLoop (buf ++ l) rest
  | buf, ⟨l, false, none⟩ :: rest => handleLine (buf ++ l) (resolveLoop [] rest)

/-- resolve of src/unnamed/part_000: run the loop with an empty buffer. -/
def resolve (rs : List ReadRes) : List Action := resolveLoop [] rs

end Cohere

namespace ChatV1

open Wire

/-- The wire-level event block of src/chat.go: the same struct without the
tool_calls field. -/
structure block where
  Finished : Bool := false
  Event : String := ""
  Id : String := ""
  Text : String := ""
  Reason : String := ""

/-- Member assignment for the chat.go block; tool_calls is an unknown key
here and is ignored. -/
def setField (b : block) (k : String) (v : Jval) : Except String block :=
  if lcEq k "is_finished" then
    match v with
    | .bool x => .ok { b with Finished := x }
    | .null => .ok b
    | _ => .error "cannot unmarshal value into field is_finished"
  else if lcEq k "event_type" then
    match v with
    | .str s => .ok { b with Event := s }
    | .null => .ok b
    | _ => .error "cannot unmarshal value into field event_type"
  else if lcEq k "generation_id" then
    match v with
    | .str s => .ok { b with Id := s }
    | .null => .ok b
    | _ => .error "cannot unmarshal value into field generation_id"
  else if lcEq k "text" then
    match v with
    | .str s => .ok { b with Text := s }
    | .null => .ok b
    | _ => .error "cannot unmarshal value into field text"
  else if lcEq k "finish_reason" then
    match v with
    | .str s => .ok { b with Reason := s }
    | .null => .ok b
    | _ => .error "cannot unmarshal value into field finish_reason"
  else .ok b

/-- Fold all members of a decoded JSON object into a chat.go `block`. -/
def applyFields (b : block) : List (String × Jval) → Except String block
  | [] => .ok b
  | (k, v) :: rest =>
    match setField b k v with
    | .error e => .error e
    | .ok b2 => applyFields b2 rest

/-- json.Unmarshal into the chat.go block struct. -/
def unmarshalBlock (s : List Char) : Except String block :=
  match parseTop s with
  | .error e => .error e
  | .ok (.obj kvs) => applyFields {} kvs
  | .ok .null => .ok {}
  | .ok _ => .error "cannot unmarshal value into block"

/-- Processing of one complete accumulated line by the chat.go resolve
(src/chat.go lines 131-145): no tool-calls branch, and the only deferred
release is the channel close — chat.go never closes the response body. -/
def handleLine (s : List Char) (k : List Action) : List Action :=
  match unmarshalBlock s with
  | .error e => [.send ("error: " ++ e), .closeChan]
  | .ok b =>
    if b.Finished then [.closeChan]
    else if b.Event = "text-generation" then .send ("text: " ++ b.Text) :: k
    else k

/-- The resolve loop of src/chat.go lines 112-146. -/
def resolveLoop : List Char → List ReadRes → List Action
  | _, [] => [.closeChan]
  | buf, ⟨l, _, some e⟩ :: _ =>
    (if e = RErr.eof then [] else [.send ("error: " ++ errDescr e)]) ++
      (if buf ++ l = [] then [] else [.send ("text: " ++ String.mk (buf ++ l))]) ++
      [.closeChan]
  | buf, ⟨l, true, none⟩ :: rest => resolveLoop (buf ++ l) rest
  | buf, ⟨l, false, none⟩ :: rest => handleLine (buf ++ l) (resolveLoop [] rest)

/-- resolve of src/chat.go: run the loop with an empty buffer. -/
def resolve (rs : List ReadRes) : List Action := resolveLoop [] rs

end ChatV1

namespace BufioM

open Wire

/-- Index of the first newline in the remaining bytes, if any. -/
def findNlIdx : List Char → Option Nat
  | [] => none
  | c :: s => if c = '\n' then some 0 else (findNlIdx s).map (· + 1)

/-- How one ReadSlice call ends: delimiter found, internal buffer full, or
end of the stream. -/
inductive SliceEnd where
  | delim
  | bufFull
  | eofEnd
deriving DecidableEq

/-- Modelled from the Go standard library bufio.Reader.ReadSlice (a
collaborator of this repository, not part of src/): with internal buffer
capacity `cap`, return the bytes up to and including the first newline if
one occurs within the buffer, the full buffer with ErrBufferFull if the
buffer fills first, or everything left with io.EOF if the clean end of the
stream comes first.  ReadSlice fills its buffer in a loop until one of
these cases occurs, so the outcome depends only on the byte content, never
on how the transport chunks it. -/
def readSlice (cap : Nat) (s : List Char) : List Char × SliceEnd × List Char :=
  match findNlIdx s with
  | some i =>
    if i < cap then (s.take (i + 1), .delim, s.drop (i + 1))
    else (s.take cap, .bufFull, s.drop cap)
  | none =>
    if cap ≤ s.length then (s.take cap, .bufFull, s.drop cap)
    else (s, .eofEnd, [])

/-- Modelled from the Go standard library bufio.Reader.ReadLine: a full
buffer yields an isPrefix fragment (with a trailing carriage return pushed
back so a split CRLF is still recognised); a line ending in the delimiter
is returned without its line ending and with a nil error; a non-empty
leftover at the end of the stream is also returned as a complete line with
the error suppressed, and only a read that yields no bytes reports io.EOF. -/
def readLine (cap : Nat) (s : List Char) : ReadRes × List Char :=
  match readSlice cap s with
  | (line, .bufFull, rest) =>
    if line.getLast? = some '\r' then (⟨line.dropLast, true, none⟩, '\r' :: rest)
    else (⟨line, true, none⟩, rest)
  | (line, .delim, rest) =>
    let l1 := line.dropLast
    let l2 := if l1.getLast? = some '\r' then l1.dropLast else l1
    (⟨l2, false, none⟩, rest)
  | (line, .eofEnd, rest) =>
    if line = [] then (⟨[], false, some .eof⟩, rest)
    else (⟨line, false, none⟩, rest)

/-- The whole ReadLine result sequence for a byte stream that ends with a
clean end of stream.  The fuel only needs to exceed the number of ReadLine
calls; concrete uses instantiate it accordingly. -/
def readAll (fuel cap : Nat) (s : List Char) : List ReadRes :=
  match fuel with
  | 0 => []
  | fuel + 1 =>
    let p := readLine cap s
    if p.1.err.isSome then [p.1] else p.1 :: readAll fuel cap p.2

end BufioM

namespace Cohere

open Wire

/-- A chat history entry (src/unnamed/part_000). -/
structure Message where
  Role : String
  Message : String

/-- A tool definition passed through to the request. -/
structure ToolCall where
  Name : String
  Description : String
  Param : List (String × Jval)

/-- A tool invocation result passed through to the request. -/
structure ToolResult where
  Call : Jval
  Outputs : List Jval

/-- The pair of tool definitions and results handed to Reply. -/
structure ToolObject where
  Tools : List ToolCall
  Results : List ToolResult

/-- The client configuration of src/unnamed/part_000 (the emit.Session
client handle is an external collaborator and is not part of the data the
payload builder reads).  The float32 temperature is modelled as a rational:
the builder only compares it with zero and overwrites it with 0.95, and
both operations agree with their float32 counterparts on every numeral. -/
structure Chat where
  temperature : ℚ
  maxTokens : Int
  model : String
  seed : Int
  token : String
  proxies : String
  isChat : Bool
  stopSequences : List String
  topK : Int
  safety : String

/-- The values a request payload map can hold. -/
inductive PVal where
  | s (v : String)
  | b (v : Bool)
  | q (v : ℚ)
  | i (v : Int)
  | msgs (v : List Message)
  | tools (v : List ToolCall)
  | results (v : List ToolResult)
  | strs (v : List String)

/-- A request payload: the map[string]interface\x7b\x7d built by
makePayload, as an insertion-ordered association list (every key is
inserted at most once, so lookup agrees with the Go map). -/
abbrev Payload := List (String × PVal)

/-- Key lookup in a payload. -/
def lookupP : Payload → String → Option PVal
  | [], _ => none
  | (k, v) :: rest, key => if k = key then some v else lookupP rest key

/-- makePayload of src/unnamed/part_000 lines 154-197.  The Go method
mutates its receiver through a pointer; that state change is returned as
the first component. -/
def makePayload (c : Chat) (pMessages : List Message) (system message : String)
    (isChat : Bool) (toolObject : ToolObject) : Chat × Payload :=
  let c := if c.temperature < 0 then { c with temperature := 0.95 } else c
  let payload : Payload :=
    if isChat then
      [("chat_history", .msgs pMessages),
       ("connectors", .strs []),
       ("message", .s message),
       ("model", .s c.model),
       ("preamble", .s system),
       ("prompt_truncation", .s "OFF"),
       ("stream", .b true),
       ("temperature", .q c.temperature),
       ("tools", .tools toolObject.Tools),
       ("tool_results", .results toolObject.Results)] ++
        (if c.seed > 0 then [("seed", .i c.seed)] else []) ++
        (if c.safety ≠ "" then [("safety_mode", .s c.safety)] else [])
    else
      [("k", .i c.topK),
       ("model", .s c.model),
       ("max_tokens", .i c.maxTokens),
       ("prompt", .s message),
       ("raw_prompting", .b false),
       ("stream", .b true),
       ("temperature", .q c.temperature)]
  let payload :=
    if 0 < c.stopSequences.length then payload ++ [("stop_sequences", .strs c.stopSequences)]
    else payload
  (c, payload)

end Cohere

namespace ChatV1

open Wire

/-- The client configuration of src/chat.go; its int32 seed is modelled as
an integer and its float32 temperature as a rational, as in `Cohere.Chat`. -/
structure Chat where
  temperature : ℚ
  model : String
  seed : Int
  token : String
  proxies : String

/-- makePayload of src/chat.go lines 87-107 (chat mode only, no tools). -/
def makePayload (c : Chat) (pMessages : List Cohere.Message) (system message : String) :
    Chat × Cohere.Payload :=
  let c := if c.temperature < 0 then { c with temperature := 0.95 } else c
  let payload : Cohere.Payload :=
    [("chat_history", .msgs pMessages),
     ("connectors", .strs []),
     ("message", .s message),
     ("model", .s c.model),
     ("preamble", .s system),
     ("prompt_truncation", .s "OFF"),
     ("stream", .b true),
     ("temperature", .q c.temperature)] ++
      (if c.seed > 0 then [("seed", .i c.seed)] else [])
  (c, payload)

end ChatV1

namespace Wire

/-- The ReadLine results by which a reader delivers one logical line split
into fragments: every fragment but the last carries the isPrefix flag. -/
def fragReads : List (List Char) → List ReadRes
  | [] => []
  | [f] => [⟨f, false, none⟩]
  | f :: g :: rest => ⟨f, true, none⟩ :: fragReads (g :: rest)

/-- The single ReadLine result delivering one whole logical line. -/
def lineRead (l : List Char) : ReadRes := ⟨l, false, none⟩

/-- ReadLine results delivering each logical line whole. -/
def wholeReads (ls : List (List Char)) : List ReadRes := ls.map lineRead

/-- ReadLine results delivering each logical line split into the given
fragments. -/
def flatFrag (fss : List (List (List Char))) : List ReadRes :=
  (fss.map fragReads).flatten

/-- Reassembly of a fragmented logical line. -/
def joinAll (fs : List (List Char)) : List Char := fs.foldr (· ++ ·) []

end Wire

namespace Inputs

/-- A finish-signal line that also carries an event type and a text. -/
def finLine : String :=
  "\x7b\"is_finished\":true,\"event_type\":\"text-generation\",\"text\":\"hi\"\x7d"

/-- A plain text-generation line with text hello. -/
def textLine : String :=
  "\x7b\"event_type\":\"text-generation\",\"text\":\"hello\"\x7d"

/-- A tool-calls-generation line with a two-element tool-calls array. -/
def toolLine : String :=
  "\x7b\"event_type\":\"tool-calls-generation\",\"tool_calls\":[\"a\",true]\x7d"

/-- The unterminated trailing bytes of the spec example: an opening brace,
a double quote, and the word partial, with no newline before the stream
ends. -/
def trailingBytes : String := "\x7b\x22partial"

end Inputs

/-- Delivering one logical line as isPrefix fragments makes resolve
accumulate the fragments and handle their concatenation as one line. -/
theorem Cohere.resolveLoop_frag :
    ∀ (fs : List (List Char)) (buf : List Char) (rest : List Wire.ReadRes), fs ≠ [] →
      Cohere.resolveLoop buf (Wire.fragReads fs ++ rest) =
        Cohere.resolveLoop buf (⟨Wire.joinAll fs, false, none⟩ :: rest) := by
  intro fs
  induction fs with
  | nil => exact fun buf rest h => absurd rfl h
  | cons f fs ih =>
    intro buf rest _
    cases fs with
    | nil => simp [Wire.fragReads, Wire.joinAll, Cohere.resolveLoop]
    | cons g gs =>
      have step : Cohere.resolveLoop buf (Wire.fragReads (f :: g :: gs) ++ rest) =
          Cohere.resolveLoop (buf ++ f) (Wire.fragReads (g :: gs) ++ rest) := rfl
      rw [step, ih (buf ++ f) rest (by simp)]
      show Cohere.handleLine ((buf ++ f) ++ Wire.joinAll (g :: gs)) _ =
        Cohere.handleLine (buf ++ (f ++ Wire.joinAll (g :: gs))) _
      rw [List.append_assoc]

/-- C1: for every byte stream, the events resolve emits do not depend on
how the logical lines were split into reader fragments: a partial fragment
(isPrefix result) is appended to the accumulation buffer and the loop
continues without treating it as a line terminator, so any fragmentation
of the logical lines produces the same actions as delivering each line
whole. -/
theorem C1_chunk_boundary_independence :
    ∀ (fss : List (List (List Char))) (tail : List Wire.ReadRes),
      (∀ fs ∈ fss, fs ≠ []) →
      Cohere.resolve (Wire.flatFrag fss ++ tail) =
        Cohere.resolve (Wire.wholeReads (fss.map Wire.joinAll) ++ tail) := by
  intro fss tail
  induction fss with
  | nil => intro _; rfl
  | cons fs fss ih =>
    intro h
    obtain ⟨h1, h2⟩ := List.forall_mem_cons.mp h
    show Cohere.resolveLoop [] (Wire.flatFrag (fs :: fss) ++ tail) = _
    have e1 : Wire.flatFrag (fs :: fss) ++ tail =
        Wire.fragReads fs ++ (Wire.flatFrag fss ++ tail) := by
      simp [Wire.flatFrag]
    rw [e1, Cohere.resolveLoop_frag fs [] (Wire.flatFrag fss ++ tail) h1]
    show Cohere.handleLine ([] ++ Wire.joinAll fs)
        (Cohere.resolveLoop [] (Wire.flatFrag fss ++ tail)) =
      Cohere.handleLine ([] ++ Wire.joinAll fs)
        (Cohere.resolveLoop [] (Wire.wholeReads (fss.map Wire.joinAll) ++ tail))
    exact congrArg _ (ih h2)

/-- Witness for C1 at a concrete fragmentation: the line "abcd" delivered
as fragments "ab", "cd" followed by the line "e", against the unsplit
delivery, both ended by a clean EOF read. -/
theorem C1_chunk_boundary_independence_witness :
    (∀ fs ∈ [["ab".toList, "cd".toList], ["e".toList]], fs ≠ ([] : List (List Char))) ∧
    Cohere.resolve (Wire.flatFrag [["ab".toList, "cd".toList], ["e".toList]] ++
        [⟨[], false, some .eof⟩]) =
      Cohere.resolve (Wire.wholeReads ([["ab".toList, "cd".toList], ["e".toList]].map
          Wire.joinAll) ++ [⟨[], false, some .eof⟩]) :=
  ⟨by decide, C1_chunk_boundary_independence _ _ (by decide)⟩

/-- Handling one complete line only ever prepends channel sends to the
continuation or ends the run with the two deferred releases. -/
theorem Cohere.handleLine_shape (s : List Char) (evs : List Wire.Action)
    (hs : ∀ a ∈ evs, ∃ m, a = Wire.Action.send m) :
    ∃ evs2, (∀ a ∈ evs2, ∃ m, a = Wire.Action.send m) ∧
      Cohere.handleLine s (evs ++ [Wire.Action.closeBody, Wire.Action.closeChan]) =
        evs2 ++ [Wire.Action.closeBody, Wire.Action.closeChan] := by
  unfold Cohere.handleLine
  cases h : Cohere.unmarshalBlock s with
  | error e => exact ⟨[Wire.Action.send ("error: " ++ e)], by simp, rfl⟩
  | ok b =>
    by_cases hf : b.Finished
    · exact ⟨[], by simp, by simp [hf]⟩
    · by_cases ht : b.Event = "text-generation"
      · refine ⟨Wire.Action.send ("text: " ++ b.Text) :: evs, ?_, by simp [hf, ht]⟩
        intro a ha
        rcases List.mem_cons.mp ha with h1 | h1
        · exact ⟨_, h1⟩
        · exact hs a h1
      · by_cases hc : b.Event = "tool-calls-generation"
        · refine ⟨Wire.Action.send ("tool: " ++ Wire.marshalJ (Cohere.optToolsJ b.ToolCalls))
            :: evs, ?_, by simp [hf, ht, hc, Cohere.jsonMarshal]⟩
          intro a ha
          rcases List.mem_cons.mp ha with h1 | h1
          · exact ⟨_, h1⟩
          · exact hs a h1
        · exact ⟨evs, hs, by simp [hf, ht, hc]⟩

/-- Every run of the part_000 resolve loop is a list of channel sends
followed by exactly the deferred body close and channel close. -/
theorem Cohere.resolveLoop_shape (rs : List Wire.ReadRes) :
    ∀ buf, ∃ evs, (∀ a ∈ evs, ∃ m, a = Wire.Action.send m) ∧
      Cohere.resolveLoop buf rs = evs ++ [Wire.Action.closeBody, Wire.Action.closeChan] := by
  induction rs with
  | nil => exact fun buf => ⟨[], by simp, rfl⟩
  | cons r rest ih =>
    intro buf
    obtain ⟨l, m, e⟩ := r
    cases e with
    | some e2 =>
      refine ⟨(if e2 = Wire.RErr.eof then [] else
          [Wire.Action.send ("error: " ++ Wire.errDescr e2)]) ++
          (if buf ++ l = [] then [] else
          [Wire.Action.send ("text: " ++ String.mk (buf ++ l))]), ?_, ?_⟩
      · intro a ha
        rcases List.mem_append.mp ha with h1 | h1 <;> [skip; skip] <;>
          · split at h1 <;> simp_all
      · cases m <;> simp only [resolveLoop]
    | none =>
      cases m with
      | true => exact ih (buf ++ l)
      | false =>
        obtain ⟨evs, hs, hk⟩ := ih []
        obtain ⟨evs2, hs2, h2⟩ := Cohere.handleLine_shape (buf ++ l) evs hs
        refine ⟨evs2, hs2, ?_⟩
        show Cohere.handleLine (buf ++ l) (Cohere.resolveLoop [] rest) = _
        rw [hk]
        exact h2

/-- Handling one complete line in chat.go only ever prepends channel
sends to the continuation or ends the run with the deferred channel
close. -/
theorem ChatV1.handleLine_shape_v1 (s : List Char) (evs : List Wire.Action)
    (hs : ∀ a ∈ evs, ∃ m, a = Wire.Action.send m) :
    ∃ evs2, (∀ a ∈ evs2, ∃ m, a = Wire.Action.send m) ∧
      ChatV1.handleLine s (evs ++ [Wire.Action.closeChan]) =
        evs2 ++ [Wire.Action.closeChan] := by
  unfold ChatV1.handleLine
  cases h : ChatV1.unmarshalBlock s with
  | error e => exact ⟨[Wire.Action.send ("error: " ++ e)], by simp, rfl⟩
  | ok b =>
    by_cases hf : b.Finished
    · exact ⟨[], by simp, by simp [hf]⟩
    · by_cases ht : b.Event = "text-generation"
      · refine ⟨Wire.Action.send ("text: " ++ b.Text) :: evs, ?_, by simp [hf, ht]⟩
        intro a ha
        rcases List.mem_cons.mp ha with h1 | h1
        · exact ⟨_, h1⟩
        · exact hs a h1
      · exact ⟨evs, hs, by simp [hf, ht]⟩

/-- Every run of the chat.go resolve loop is a list of channel sends
followed by exactly the deferred channel close. -/
theorem ChatV1.resolveLoop_shape_v1 (rs : List Wire.ReadRes) :
    ∀ buf, ∃ evs, (∀ a ∈ evs, ∃ m, a = Wire.Action.send m) ∧
      ChatV1.resolveLoop buf rs = evs ++ [Wire.Action.closeChan] := by
  induction rs with
  | nil => exact fun buf => ⟨[], by simp, rfl⟩
  | cons r rest ih =>
    intro buf
    obtain ⟨l, m, e⟩ := r
    cases e with
    | some e2 =>
      refine ⟨(if e2 = Wire.RErr.eof then [] else
          [Wire.Action.send ("error: " ++ Wire.errDescr e2)]) ++
          (if buf ++ l = [] then [] else
          [Wire.Action.send ("text: " ++ String.mk (buf ++ l))]), ?_, ?_⟩
      · intro a ha
        rcases List.mem_append.mp ha with h1 | h1 <;> [skip; skip] <;>
          · split at h1 <;> simp_all
      · cases m <;> simp only [resolveLoop]
    | none =>
      cases m with
      | true => exact ih (buf ++ l)
      | false =>
        obtain ⟨evs, hs, hk⟩ := ih []
        obtain ⟨evs2, hs2, h2⟩ := ChatV1.handleLine_shape_v1 (buf ++ l) evs hs
        refine ⟨evs2, hs2, ?_⟩
        show ChatV1.handleLine (buf ++ l) (ChatV1.resolveLoop [] rest) = _
        rw [hk]
        exact h2

/-- A list of sends contains no occurrence of the given non-send action. -/
theorem Wire.sends_count_zero (evs : List Wire.Action)
    (hs : ∀ a ∈ evs, ∃ m, a = Wire.Action.send m) (b : Wire.Action)
    (hb : ∀ m, b ≠ Wire.Action.send m) : evs.count b = 0 := by
  refine List.count_eq_zero.mpr ?_
  intro hmem
  rcases hs b hmem with ⟨m, hm⟩
  exact hb m hm

/-- C2: on every termination path of either revision of resolve (clean
EOF, read error, decode error, re-encode error path, finished signal, and
any mix of preceding events) the output channel is closed exactly once,
and that close is the last action of the run. -/
theorem C2_channel_closed_once :
    ∀ rs : List Wire.ReadRes,
      ((Cohere.resolve rs).count Wire.Action.closeChan = 1 ∧
        (Cohere.resolve rs).getLast? = some Wire.Action.closeChan) ∧
      ((ChatV1.resolve rs).count Wire.Action.closeChan = 1 ∧
        (ChatV1.resolve rs).getLast? = some Wire.Action.closeChan) := by
  intro rs
  obtain ⟨evs, hs, h⟩ := Cohere.resolveLoop_shape rs []
  obtain ⟨evs2, hs2, h2⟩ := ChatV1.resolveLoop_shape_v1 rs []
  have hz := Wire.sends_count_zero evs hs Wire.Action.closeChan (by simp)
  have hz2 := Wire.sends_count_zero evs2 hs2 Wire.Action.closeChan (by simp)
  have hc : Cohere.resolve rs = evs ++ [Wire.Action.closeBody, Wire.Action.closeChan] := h
  have hv : ChatV1.resolve rs = evs2 ++ [Wire.Action.closeChan] := h2
  refine ⟨⟨?_, ?_⟩, ?_, ?_⟩
  · rw [hc, List.count_append, hz]
    decide
  · rw [hc]
    have he : evs ++ [Wire.Action.closeBody, Wire.Action.closeChan] =
        (evs ++ [Wire.Action.closeBody]) ++ [Wire.Action.closeChan] := by simp
    rw [he, List.getLast?_concat]
  · rw [hv, List.count_append, hz2]
    decide
  · rw [hv, List.getLast?_concat]

/-- C3: the part_000 resolve closes the response body exactly once on
every termination path, but the chat.go resolve never closes the response
body on any input: its only deferred release is the channel close, as the
concrete clean-EOF run shows. -/
theorem C3_body_close_ownership :
    (∀ rs : List Wire.ReadRes, (Cohere.resolve rs).count Wire.Action.closeBody = 1) ∧
    (∀ rs : List Wire.ReadRes, Wire.Action.closeBody ∉ ChatV1.resolve rs) ∧
    ChatV1.resolve [⟨[], false, some .eof⟩] = [Wire.Action.closeChan] := by
  refine ⟨?_, ?_, rfl⟩
  · intro rs
    obtain ⟨evs, hs, h⟩ := Cohere.resolveLoop_shape rs []
    have hz := Wire.sends_count_zero evs hs Wire.Action.closeBody (by simp)
    have hc : Cohere.resolve rs = evs ++ [Wire.Action.closeBody, Wire.Action.closeChan] := h
    rw [hc, List.count_append, hz]
    decide
  · intro rs hmem
    obtain ⟨evs, hs, h⟩ := ChatV1.resolveLoop_shape_v1 rs []
    have hv : ChatV1.resolve rs = evs ++ [Wire.Action.closeChan] := h
    rw [hv] at hmem
    rcases List.mem_append.mp hmem with h1 | h1
    · rcases hs _ h1 with ⟨m, hm⟩
      cases hm
    · simp at h1

/-- C4: a complete line whose accumulated bytes fail to decode makes both
revisions of resolve emit exactly one error-prefixed event carrying the
decode error description and then run only the deferred releases: no
further reads happen and no further events are sent before the channel
closes, whatever results remain in the stream. -/
theorem C4_decode_failure_fatal :
    ∀ (buf l : List Char) (rest : List Wire.ReadRes),
      (∀ e, Cohere.unmarshalBlock (buf ++ l) = .error e →
        Cohere.resolveLoop buf (⟨l, false, none⟩ :: rest) =
          [.send ("error: " ++ e), .closeBody, .closeChan]) ∧
      (∀ e, ChatV1.unmarshalBlock (buf ++ l) = .error e →
        ChatV1.resolveLoop buf (⟨l, false, none⟩ :: rest) =
          [.send ("error: " ++ e), .closeChan]) := by
  intro buf l rest
  constructor
  · intro e he
    show Cohere.handleLine (buf ++ l) _ = _
    unfold Cohere.handleLine
    rw [he]
  · intro e he
    show ChatV1.handleLine (buf ++ l) _ = _
    unfold ChatV1.handleLine
    rw [he]

/-- Witness for C4: the malformed line of one exclamation mark, with an
empty accumulation buffer and further unread results behind it. -/
theorem C4_decode_failure_fatal_witness :
    Cohere.unmarshalBlock ([] ++ "!".toList) = .error Wire.jsonCharMsg ∧
    ChatV1.unmarshalBlock ([] ++ "!".toList) = .error Wire.jsonCharMsg ∧
    Cohere.resolveLoop [] [⟨"!".toList, false, none⟩, ⟨[], false, some .eof⟩] =
      [.send ("error: " ++ Wire.jsonCharMsg), .closeBody, .closeChan] ∧
    ChatV1.resolveLoop [] [⟨"!".toList, false, none⟩, ⟨[], false, some .eof⟩] =
      [.send ("error: " ++ Wire.jsonCharMsg), .closeChan] :=
  ⟨rfl, rfl,
    (C4_decode_failure_fatal [] ("!".toList) [⟨[], false, some .eof⟩]).1 _ rfl,
    (C4_decode_failure_fatal [] ("!".toList) [⟨[], false, some .eof⟩]).2 _ rfl⟩

/-- C6: a successfully decoded line whose finished flag is true makes both
revisions of resolve return at once, emitting no event for that line and
none after it, whatever other fields the line carried. -/
theorem C6_finished_terminates :
    ∀ (buf l : List Char) (rest : List Wire.ReadRes),
      (∀ b : Cohere.block, Cohere.unmarshalBlock (buf ++ l) = .ok b → b.Finished = true →
        Cohere.resolveLoop buf (⟨l, false, none⟩ :: rest) = [.closeBody, .closeChan]) ∧
      (∀ b : ChatV1.block, ChatV1.unmarshalBlock (buf ++ l) = .ok b → b.Finished = true →
        ChatV1.resolveLoop buf (⟨l, false, none⟩ :: rest) = [.closeChan]) := by
  intro buf l rest
  constructor
  · intro b hb hf
    show Cohere.handleLine (buf ++ l) _ = _
    unfold Cohere.handleLine
    rw [hb]
    simp [hf]
  · intro b hb hf
    show ChatV1.handleLine (buf ++ l) _ = _
    unfold ChatV1.handleLine
    rw [hb]
    simp [hf]

/-- Witness for C6: a finish-signal line that also carries a
text-generation event type and a text payload, with unread results behind
it; no event is emitted for it or after it. -/
theorem C6_finished_terminates_witness :
    Cohere.unmarshalBlock ([] ++ Inputs.finLine.toList) =
      .ok ⟨true, "text-generation", "", "hi", "", none⟩ ∧
    ChatV1.unmarshalBlock ([] ++ Inputs.finLine.toList) =
      .ok ⟨true, "text-generation", "", "hi", ""⟩ ∧
    Cohere.resolveLoop [] [⟨Inputs.finLine.toList, false, none⟩,
        ⟨Inputs.textLine.toList, false, none⟩] = [.closeBody, .closeChan] ∧
    ChatV1.resolveLoop [] [⟨Inputs.finLine.toList, false, none⟩,
        ⟨Inputs.textLine.toList, false, none⟩] = [.closeChan] :=
  ⟨rfl, rfl,
    (C6_finished_terminates [] Inputs.finLine.toList
      [⟨Inputs.textLine.toList, false, none⟩]).1 _ rfl rfl,
    (C6_finished_terminates [] Inputs.finLine.toList
      [⟨Inputs.textLine.toList, false, none⟩]).2 _ rfl rfl⟩

/-- C7: a successfully decoded, unfinished line of event type
text-generation makes both revisions of resolve emit exactly one event,
the string text-colon-space followed by the text field, and then continue
the loop on the remaining results with the buffer reset. -/
theorem C7_text_generation_emits :
    ∀ (buf l : List Char) (rest : List Wire.ReadRes),
      (∀ b : Cohere.block, Cohere.unmarshalBlock (buf ++ l) = .ok b → b.Finished = false →
        b.Event = "text-generation" →
        Cohere.resolveLoop buf (⟨l, false, none⟩ :: rest) =
          .send ("text: " ++ b.Text) :: Cohere.resolveLoop [] rest) ∧
      (∀ b : ChatV1.block, ChatV1.unmarshalBlock (buf ++ l) = .ok b → b.Finished = false →
        b.Event = "text-generation" →
        ChatV1.resolveLoop buf (⟨l, false, none⟩ :: rest) =
          .send ("text: " ++ b.Text) :: ChatV1.resolveLoop [] rest) := by
  intro buf l rest
  constructor
  · intro b hb hf ht
    show Cohere.handleLine (buf ++ l) _ = _
    unfold Cohere.handleLine
    rw [hb]
    simp [hf, ht]
  · intro b hb hf ht
    show ChatV1.handleLine (buf ++ l) _ = _
    unfold ChatV1.handleLine
    rw [hb]
    simp [hf, ht]

/-- Witness for C7: the text-generation line with text hello emits exactly
the event text-colon-space-hello and the run then ends on the clean EOF
that follows. -/
theorem C7_text_generation_emits_witness :
    Cohere.unmarshalBlock ([] ++ Inputs.textLine.toList) =
      .ok ⟨false, "text-generation", "", "hello", "", none⟩ ∧
    ChatV1.unmarshalBlock ([] ++ Inputs.textLine.toList) =
      .ok ⟨false, "text-generation", "", "hello", ""⟩ ∧
    Cohere.resolveLoop [] [⟨Inputs.textLine.toList, false, none⟩, ⟨[], false, some .eof⟩] =
      [.send "text: hello", .closeBody, .closeChan] ∧
    ChatV1.resolveLoop [] [⟨Inputs.textLine.toList, false, none⟩, ⟨[], false, some .eof⟩] =
      [.send "text: hello", .closeChan] := by
  refine ⟨rfl, rfl, ?_, ?_⟩
  · rw [(C7_text_generation_emits [] Inputs.textLine.toList
      [⟨[], false, some .eof⟩]).1 ⟨false, "text-generation", "", "hello", "", none⟩ rfl rfl rfl]
    decide
  · rw [(C7_text_generation_emits [] Inputs.textLine.toList
      [⟨[], false, some .eof⟩]).2 ⟨false, "text-generation", "", "hello", ""⟩ rfl rfl rfl]
    decide

/-- C8: a successfully decoded, unfinished line of event type
tool-calls-generation with a tool-calls array makes the part_000 resolve
re-encode the array as compact JSON and emit exactly one event, the string
tool-colon-space followed by that JSON array, then continue the loop on
the remaining results.  The re-encode error arm exists in the code but
json.Marshal cannot fail on values that came out of json decoding. -/
theorem C8_tool_calls_generation_emits :
    ∀ (buf l : List Char) (rest : List Wire.ReadRes) (b : Cohere.block)
      (xs : List Wire.Jval),
      Cohere.unmarshalBlock (buf ++ l) = .ok b → b.Finished = false →
      b.Event = "tool-calls-generation" → b.ToolCalls = some xs →
      Cohere.resolveLoop buf (⟨l, false, none⟩ :: rest) =
        .send ("tool: " ++ Wire.marshalJ (.arr xs)) :: Cohere.resolveLoop [] rest := by
  intro buf l rest b xs hb hf hev htc
  show Cohere.handleLine (buf ++ l) _ = _
  unfold Cohere.handleLine
  rw [hb]
  simp [hf, hev, htc, Cohere.jsonMarshal, Cohere.optToolsJ]

/-- Witness for C8: a tool-calls line whose array holds the string a and
the boolean true emits exactly the event tool-colon-space followed by the
compact array literal, and the run then ends on the clean EOF that
follows. -/
theorem C8_tool_calls_generation_emits_witness :
    Cohere.unmarshalBlock ([] ++ Inputs.toolLine.toList) =
      .ok ⟨false, "tool-calls-generation", "", "", "",
        some [Wire.Jval.str "a", Wire.Jval.bool true]⟩ ∧
    Cohere.resolveLoop [] [⟨Inputs.toolLine.toList, false, none⟩, ⟨[], false, some .eof⟩] =
      [.send "tool: [\"a\",true]", .closeBody, .closeChan] := by
  refine ⟨rfl, ?_⟩
  rw [C8_tool_calls_generation_emits [] Inputs.toolLine.toList [⟨[], false, some .eof⟩]
    ⟨false, "tool-calls-generation", "", "", "", some [Wire.Jval.str "a", Wire.Jval.bool true]⟩
    [Wire.Jval.str "a", Wire.Jval.bool true] rfl rfl rfl rfl]
  decide

/-- C10: a complete empty logical line (a newline with an empty
accumulation buffer) is handed to the JSON decoder, which rejects the
empty input, so both revisions of resolve emit one error-prefixed event
and terminate at once; the byte-level run on a single newline byte shows
the same actions. -/
theorem C10_empty_line_fatal :
    ∀ rest : List Wire.ReadRes,
      Cohere.resolveLoop [] (⟨[], false, none⟩ :: rest) =
        [.send ("error: " ++ Wire.jsonEofMsg), .closeBody, .closeChan] ∧
      ChatV1.resolveLoop [] (⟨[], false, none⟩ :: rest) =
        [.send ("error: " ++ Wire.jsonEofMsg), .closeChan] ∧
      Cohere.resolve (BufioM.readAll 2 4096 ['\n']) =
        [.send ("error: " ++ Wire.jsonEofMsg), .closeBody, .closeChan] := by
  intro rest
  exact ⟨rfl, rfl, rfl⟩

/-- C5 counterexample: a stream that ends with the unterminated bytes
left-brace, quote, partial and a clean end of stream does not emit the
claimed single text event.  The line reader returns those nine bytes as a
complete line with no error before reporting EOF, so resolve JSON-decodes
them, fails, and emits one error event instead. -/
theorem C5_trailing_salvage_counterexample :
    Cohere.resolve (BufioM.readAll 3 4096 Inputs.trailingBytes.toList) =
      [.send ("error: " ++ Wire.jsonEofMsg), .closeBody, .closeChan] ∧
    Wire.Action.send ("text: " ++ Inputs.trailingBytes) ∉
      Cohere.resolve (BufioM.readAll 3 4096 Inputs.trailingBytes.toList) := by
  exact ⟨rfl, by decide⟩

/-- C5 amended: when a read returns an error, both revisions of resolve
emit one error event with the error description unless the error is clean
EOF, then emit the accumulated buffer bytes (with any bytes returned
alongside the error) verbatim as one final text event when they are
non-empty, and terminate.  However, the buffered line reader hands a short
unterminated trailing line such as the spec example back as a complete
line with no error before reporting EOF, so that stream ends in one
decode-error event; the verbatim salvage fires only when the error read
arrives while fragments are still buffered, for example when the stream
ends exactly at a full reader buffer, as the four-byte-buffer run shows. -/
theorem C5_error_path_salvage :
    (∀ (buf l : List Char) (m : Bool) (e : Wire.RErr) (rest : List Wire.ReadRes),
      Cohere.resolveLoop buf (⟨l, m, some e⟩ :: rest) =
        (if e = Wire.RErr.eof then [] else [.send ("error: " ++ Wire.errDescr e)]) ++
          (if buf ++ l = [] then [] else [.send ("text: " ++ String.mk (buf ++ l))]) ++
          [.closeBody, .closeChan]) ∧
    (∀ (buf l : List Char) (m : Bool) (e : Wire.RErr) (rest : List Wire.ReadRes),
      ChatV1.resolveLoop buf (⟨l, m, some e⟩ :: rest) =
        (if e = Wire.RErr.eof then [] else [.send ("error: " ++ Wire.errDescr e)]) ++
          (if buf ++ l = [] then [] else [.send ("text: " ++ String.mk (buf ++ l))]) ++
          [.closeChan]) ∧
    Cohere.resolve (BufioM.readAll 3 4096 Inputs.trailingBytes.toList) =
      [.send ("error: " ++ Wire.jsonEofMsg), .closeBody, .closeChan] ∧
    Cohere.resolve (BufioM.readAll 3 4 "abcd".toList) =
      [.send "text: abcd", .closeBody, .closeChan] := by
  refine ⟨?_, ?_, rfl, by decide⟩
  · intro buf l m e rest
    cases m <;> simp only [Cohere.resolveLoop]
  · intro buf l m e rest
    cases m <;> simp only [ChatV1.resolveLoop]

/-- Helper: key lookup distributes over payload concatenation, searching
the left part first. -/
theorem Cohere.lookupP_append (p q : Cohere.Payload) (k : String) :
    Cohere.lookupP (p ++ q) k =
      match Cohere.lookupP p k with
      | some v => some v
      | none => Cohere.lookupP q k := by
  induction p with
  | nil => rfl
  | cons kv rest ih =>
    show Cohere.lookupP (kv :: (rest ++ q)) k = _
    obtain ⟨k2, v2⟩ := kv
    by_cases h : k2 = k <;> simp [Cohere.lookupP, h, ih]

/-- C9: makePayload of either revision substitutes 0.95 for a negative
configured temperature by mutating the builder itself, uses the resulting
temperature as the temperature entry of the payload, leaves the builder
untouched when the configured temperature is non-negative, and the
substitution persists: a second call on the mutated builder leaves it
unchanged. -/
theorem C9_temperature_default_policy :
    ∀ (c : Cohere.Chat) (pm : List Cohere.Message) (sys msg : String) (ic : Bool)
      (tObj : Cohere.ToolObject),
      ((Cohere.makePayload c pm sys msg ic tObj).1 =
        (if c.temperature < 0 then { c with temperature := 0.95 } else c)) ∧
      (Cohere.lookupP (Cohere.makePayload c pm sys msg ic tObj).2 "temperature" =
        some (.q (Cohere.makePayload c pm sys msg ic tObj).1.temperature)) ∧
      ((Cohere.makePayload (Cohere.makePayload c pm sys msg ic tObj).1 pm sys msg ic tObj).1 =
        (Cohere.makePayload c pm sys msg ic tObj).1) ∧
      (∀ d : ChatV1.Chat,
        ((ChatV1.makePayload d pm sys msg).1 =
          (if d.temperature < 0 then { d with temperature := 0.95 } else d)) ∧
        (Cohere.lookupP (ChatV1.makePayload d pm sys msg).2 "temperature" =
          some (.q (ChatV1.makePayload d pm sys msg).1.temperature)) ∧
        ((ChatV1.makePayload (ChatV1.makePayload d pm sys msg).1 pm sys msg).1 =
          (ChatV1.makePayload d pm sys msg).1)) := by
  intro c pm sys msg ic tObj
  refine ⟨?_, ?_, ?_, ?_⟩
  · by_cases h : c.temperature < 0 <;> simp [Cohere.makePayload, h]
  · by_cases h : c.temperature < 0 <;> by_cases hic : ic <;>
      simp [Cohere.makePayload, h, hic, Cohere.lookupP_append, Cohere.lookupP] <;>
      split <;> simp [Cohere.lookupP_append, Cohere.lookupP]
  · by_cases h : c.temperature < 0
    · simp [Cohere.makePayload, h]
    · simp [Cohere.makePayload, h]
  · intro d
    refine ⟨?_, ?_, ?_⟩
    · by_cases h : d.temperature < 0 <;> simp [ChatV1.makePayload, h]
    · by_cases h : d.temperature < 0 <;>
        simp [ChatV1.makePayload, h, Cohere.lookupP_append, Cohere.lookupP]
    · by_cases h : d.temperature < 0
      · simp [ChatV1.makePayload, h]
      · simp [ChatV1.makePayload, h]
